import Mathlib

/-!
Shallow embedding of `setup_code_review.py`, a pre-commit code-review tool.

The repository is a single Python file with two review pipelines:

* the strict commit gate `main` (embedded verbatim in the generated
  `pre_commit_code_check.py`, the string constant `CODE_CHECK_CONTENT`):
  checks the API credential, discovers staged and untracked files, analyzes
  each one through the LLM backend, and exits 0 or 1;
* the lenient full-repository scan `analyze_repository` (top level of
  `setup_code_review.py`): same discovery and per-file analysis, but it
  continues past per-file errors and never exits with a failure signal.

External collaborators are modelled as inputs in an `Env` record:

* the two git queries (`git diff --cached --name-only` and
  `git ls-files --others --exclude-standard`) each either raise an OS error
  (e.g. the `git` binary is missing) or complete with a return code and
  captured stdout lines — `subprocess.run` is invoked without `check=True`,
  so a non-zero return code does not raise;
* the filesystem predicates `os.path.exists` / `os.path.isfile`;
* the combined `analyze_file` call (file read + structured LLM completion),
  which either returns a validated `AnalysisResult` or raises (both the
  file-read error and the backend error are caught by the same
  `except Exception` handlers in the source, so one error channel is
  faithful).

Console output that carries diagnostic information is modelled as a list of
`LogEvent`s; purely decorative prints (banners, separator lines, the literal
prompt text) are not modelled.  The OpenAI client construction is an external
black box and is modelled as non-failing.
-/

namespace CodeReview

/-- `IssueCode` pydantic model (lines 15-21 of `setup_code_review.py`). -/
structure IssueCode where
  file_path : String
  line_number : Option Int
  severity : String
  message : String
  suggestion : String
  category : String
deriving Repr, DecidableEq

/-- `AnalysisResult` pydantic model (lines 23-27).  A pydantic `int` is an
unbounded integer, so the score is `Int`. -/
structure AnalysisResult where
  issues : List IssueCode
  passed : Bool
  summary : String
  code_quality_score : Int
deriving Repr, DecidableEq

/-- One `subprocess.run([git, ...], capture_output=True, text=True)` call:
either the call raises an `OSError` (git binary missing, I/O error), or it
completes with a return code and the lines of captured stdout.  The source
never passes `check=True`, so a non-zero return code is NOT an exception. -/
inductive GitOutcome where
  | raised (msg : String)
  | completed (returncode : Int) (stdout_lines : List String)
deriving Repr, DecidableEq

/-- The environment a run executes against: configuration, version-control
backend, filesystem and review backend.  A fixed `Env` represents an
unchanged working tree plus fixed backend responses. -/
structure Env where
  /-- `os.getenv` result for the API credential: `none` when unset. -/
  api_key : Option String
  /-- result of the staged-files query (`git diff --cached --name-only`). -/
  staged_q : GitOutcome
  /-- result of the untracked-files query (`git ls-files --others --exclude-standard`). -/
  untracked_q : GitOutcome
  /-- `os.getcwd()`, the repository root used to join paths. -/
  repo_path : String
  /-- `os.path.exists` on absolute paths. -/
  fs_exists : String → Bool
  /-- `os.path.isfile` on absolute paths. -/
  fs_isfile : String → Bool
  /-- the `analyze_file` effect for a given path argument: file read plus
  structured completion, returning a validated result or raising. -/
  analyze : String → Except String AnalysisResult

/-- Diagnostic console output, in print order. -/
inductive LogEvent where
  | apiKeyMissing
  | gitError (msg : String)
  | noFilesHint
  | noFilesFound
  | analyzing (path : String)
  | analyzingWithStatus (path status : String)
  | fileMissing (path : String)
  | qualityScore (path : String) (score : Int)
  | problems (path summary : String)
  | parseError (path msg : String)
  | averageScore (scoreSum : Int) (scoreCount : Nat)
  | reviewFailed
  | allPassed
  | noFilesToScan
deriving Repr, DecidableEq

/-- Python truthiness test `if not api_key:` on an `os.getenv` result:
true when the variable is unset or set to the empty string. -/
def missingKey : Option String → Bool
  | none => true
  | some s => s == ""

/-- Python `str.endswith(suffix)`: codepoint-level suffix match (stated on
`String.data`, the list of codepoints, which evaluates in the kernel). -/
def strEndsWith (s suffix : String) : Bool :=
  suffix.data.isSuffixOf s.data

/-- Python `str.startswith(pre)`: codepoint-level prefix match. -/
def strStartsWith (s pre : String) : Bool :=
  pre.data.isPrefixOf s.data

/-- POSIX `os.path.join` for two components, as used on
`os.path.join(repo_path, file)`. -/
def os_path_join (a b : String) : String :=
  if strStartsWith b "/" then b
  else if a == "" || strEndsWith a "/" then a ++ b
  else a ++ "/" ++ b

/-- Extension allow-list of the generated commit-gate script
(`file.endswith(('.py', '.ts', '.mjs'))`, line 86). -/
def extsMain : List String := [".py", ".ts", ".mjs"]

/-- Extension allow-list of the top-level `get_files_to_analyze`
(line 260): the extended variant. -/
def extsSetup : List String :=
  [".py", ".ts", ".mjs", ".js", ".sql", ".css", ".html", ".ipynb"]

/-- `get_files_to_analyze` (top level lines 223-275; the commit-gate copy at
lines 56-101 is identical except for the allow-list, so the list is a
parameter).  Runs the two git queries, unions stdout lines into a set
(`set(staged_files + untracked_files)` — modelled by `List.dedup`; Python's
set iteration order is unspecified, see the permutation-invariance theorem),
filters by extension suffix, existence and regular-file check on the joined
path, and returns the survivors.  Any exception in the `try` block is caught:
an error line is printed and `[]` is returned.  Note the return codes of the
completed git calls are never inspected. -/
def get_files_to_analyze (exts : List String) (env : Env) :
    List String × List LogEvent :=
  match env.staged_q with
  | .raised msg => ([], [.gitError msg])
  | .completed _ staged =>
    match env.untracked_q with
    | .raised msg => ([], [.gitError msg])
    | .completed _ untracked =>
      let all_files := (staged ++ untracked).dedup
      let valid_files := all_files.filter fun file =>
        exts.any (fun e => strEndsWith file e) &&
        env.fs_exists (os_path_join env.repo_path file) &&
        env.fs_isfile (os_path_join env.repo_path file)
      (valid_files, if valid_files.isEmpty then [.noFilesHint] else [])

/-- The gating predicate of both pipelines:
`not result.passed or result.code_quality_score < 70` (lines 181, 334, 448).
The threshold 70 is a hardcoded literal in the source. -/
def gateFails (r : AnalysisResult) : Bool :=
  !r.passed || r.code_quality_score < 70

/-- Accumulator state of the commit-gate loop:
`(total_issues, all_scores, failed, log so far)`. -/
abbrev MainAcc := List IssueCode × List Int × Bool × List LogEvent

/-- The per-file loop of `main` in the commit-gate script (lines 173-205).
For each file (addressed by its repository-relative path): print the
analyzing line, call `analyze_file`; on an exception print the parse error
and `sys.exit(1)` — modelled as `Except.error` carrying the log at the exit
point; on success append the score, print it, and when the gating predicate
holds set `failed`, extend `total_issues` and print the problem report. -/
def mainLoop (env : Env) :
    List String → List IssueCode → List Int → Bool → List LogEvent →
    Except (List LogEvent) MainAcc
  | [], issues, scores, failed, log => .ok (issues, scores, failed, log)
  | f :: rest, issues, scores, failed, log =>
    match env.analyze f with
    | .error msg => .error (log ++ [.analyzing f, .parseError f msg])
    | .ok r =>
      let scores := scores ++ [r.code_quality_score]
      let log := log ++ [.analyzing f, .qualityScore f r.code_quality_score]
      if gateFails r then
        mainLoop env rest (issues ++ r.issues) scores true
          (log ++ [.problems f r.summary])
      else
        mainLoop env rest issues scores failed log

/-- Final observable of the commit-gate process. -/
structure MainResult where
  exitCode : Nat
  log : List LogEvent
deriving Repr, DecidableEq

/-- `main` of the commit-gate script (lines 153-217): credential check
(`sys.exit(1)` when absent), file discovery, `sys.exit(0)` on an empty set,
strict per-file loop, average-score report when `all_scores` is non-empty,
and the final verdict mapped to the exit signal. -/
def mainRun (env : Env) : MainResult :=
  if missingKey env.api_key then
    { exitCode := 1, log := [.apiKeyMissing] }
  else
    let disc := get_files_to_analyze extsMain env
    if disc.1.isEmpty then
      { exitCode := 0, log := disc.2 ++ [.noFilesFound] }
    else
      match mainLoop env disc.1 [] [] false [] with
      | .error llog => { exitCode := 1, log := disc.2 ++ llog }
      | .ok (_, scores, failed, llog) =>
        let avg : List LogEvent :=
          if scores.length > 0 then [.averageScore scores.sum scores.length]
          else []
        if failed then
          { exitCode := 1, log := disc.2 ++ llog ++ avg ++ [.reviewFailed] }
        else
          { exitCode := 0, log := disc.2 ++ llog ++ avg ++ [.allPassed] }

/-- stdout lines of a completed git call; the `raised` case yields `[]` and
is only consulted from `scanLoop`, which is unreachable unless both queries
completed (the discovery guard in `analyze_repository`). -/
def gitStdout : GitOutcome → List String
  | .raised _ => []
  | .completed _ lines => lines

/-- The status tag computed per file in `analyze_repository`
(lines 431-439) by re-running both git queries. -/
def statusOf (env : Env) (file : String) : String :=
  if file ∈ gitStdout env.staged_q then "[Staged]"
  else if file ∈ gitStdout env.untracked_q then "[New]"
  else "[Modified]"

/-- The per-file loop of `analyze_repository` (lines 423-470).  Differences
from `mainLoop`, all from the source: the file is addressed by the joined
absolute path; a vanished file is skipped with a message (lines 426-428);
a per-file exception is printed and iteration CONTINUES (lines 469-470);
there is no `failed` flag and no exit. -/
def scanLoop (env : Env) :
    List String → List IssueCode → List Int → List LogEvent →
    List IssueCode × List Int × List LogEvent
  | [], issues, scores, log => (issues, scores, log)
  | f :: rest, issues, scores, log =>
    let full := os_path_join env.repo_path f
    if !env.fs_exists full then
      scanLoop env rest issues scores (log ++ [.fileMissing f])
    else
      match env.analyze full with
      | .error msg =>
        scanLoop env rest issues scores
          (log ++ [.analyzingWithStatus f (statusOf env f), .parseError f msg])
      | .ok r =>
        let scores := scores ++ [r.code_quality_score]
        let log := log ++ [.analyzingWithStatus f (statusOf env f),
          .qualityScore f r.code_quality_score]
        if gateFails r then
          scanLoop env rest (issues ++ r.issues) scores
            (log ++ [.problems f r.summary])
        else
          scanLoop env rest issues scores log

/-- Final observable of the lenient scan.  `analyze_repository` has no
`sys.exit` call and no failed flag, so the result type has no exit signal:
the function always returns. -/
structure ScanResult where
  all_scores : List Int
  total_issues : List IssueCode
  log : List LogEvent
deriving Repr, DecidableEq

/-- `analyze_repository` (lines 404-474): discovery with the extended
allow-list, early return with a hint on an empty set, lenient per-file loop,
average-score report when `all_scores` is non-empty. -/
def analyze_repository (env : Env) : ScanResult :=
  let disc := get_files_to_analyze extsSetup env
  if disc.1.isEmpty then
    { all_scores := [], total_issues := [], log := disc.2 ++ [.noFilesToScan] }
  else
    let out := scanLoop env disc.1 [] [] []
    let avg : List LogEvent :=
      if out.2.1.length > 0 then [.averageScore out.2.1.sum out.2.1.length]
      else []
    { all_scores := out.2.1, total_issues := out.1, log := out.2.2 ++ avg }

/-! ## Specification-side helpers -/

/-- A file the strict gate counts as failing when analyzed:
the backend returned a result and the gating predicate holds on it. -/
def fileFails (env : Env) (f : String) : Bool :=
  match env.analyze f with
  | .ok r => gateFails r
  | .error _ => false

/-- A file that analyzes successfully AND passes the gate. -/
def passesFile (env : Env) (f : String) : Bool :=
  match env.analyze f with
  | .ok r => !gateFails r
  | .error _ => false

/-- `analyze_file` succeeded. -/
def analyzeOk (env : Env) (f : String) : Bool :=
  match env.analyze f with
  | .ok _ => true
  | .error _ => false

/-- Score contributed by a file to `all_scores` in the lenient scan:
`none` when the file vanished or its analysis raised. -/
def scanScore (env : Env) (f : String) : Option Int :=
  let full := os_path_join env.repo_path f
  if env.fs_exists full then
    match env.analyze full with
    | .ok r => some r.code_quality_score
    | .error _ => none
  else none

/-- Exit signal determined by a strict-loop outcome: 1 on abort
(`sys.exit(1)` at line 205), else 1 or 0 by the `failed` flag
(lines 212-217). -/
def verdictOf : Except (List LogEvent) MainAcc → Nat
  | .error _ => 1
  | .ok (_, _, failed, _) => if failed then 1 else 0

/-- The commit-gate exit signal as a function of the processing order of the
eligible files (the tail of `main` after the credential check and the empty
check). -/
def gateExit (env : Env) (files : List String) : Nat :=
  if files.isEmpty then 0
  else verdictOf (mainLoop env files [] [] false [])

/-- Arithmetic mean of a score list, as an exact rational (the scores are
integers, so `sum(all_scores) / len(all_scores)` is this value up to float
rounding, well inside the 2-decimal reporting precision). -/
def arithMean (l : List Int) : ℚ := (l.sum : ℚ) / l.length

/-- Recognizes an average-score report in a log. -/
def isAvg : LogEvent → Bool
  | .averageScore _ _ => true
  | _ => false

/-- Recognizes the discovery-error diagnostic in a log. -/
def isGitError : LogEvent → Bool
  | .gitError _ => true
  | _ => false

end CodeReview

namespace CodeReview

/-! ## Loop characterization lemmas -/

/-- Score contributed by a file to `all_scores` in the strict gate loop:
`none` when the analysis raised (which also aborts the run). -/
def okScore (env : Env) (f : String) : Option Int :=
  match env.analyze f with
  | .ok r => some r.code_quality_score
  | .error _ => none

/-- The log component of a strict-loop outcome, whether it aborted or not. -/
def mainLoopLog : Except (List LogEvent) MainAcc → List LogEvent
  | .error l => l
  | .ok (_, _, _, l) => l

theorem mainLoop_nil (env : Env) (i : List IssueCode) (s : List Int) (b : Bool)
    (log : List LogEvent) : mainLoop env [] i s b log = .ok (i, s, b, log) := rfl

theorem mainLoop_cons_error {env : Env} {f : String} {msg : String}
    (h : env.analyze f = .error msg) (rest : List String) (i : List IssueCode)
    (s : List Int) (b : Bool) (log : List LogEvent) :
    mainLoop env (f :: rest) i s b log =
      .error (log ++ [.analyzing f, .parseError f msg]) := by
  simp [mainLoop, h]

theorem mainLoop_cons_ok {env : Env} {f : String} {r : AnalysisResult}
    (h : env.analyze f = .ok r) (rest : List String) (i : List IssueCode)
    (s : List Int) (b : Bool) (log : List LogEvent) :
    mainLoop env (f :: rest) i s b log =
      if gateFails r then
        mainLoop env rest (i ++ r.issues) (s ++ [r.code_quality_score]) true
          (log ++ [.analyzing f, .qualityScore f r.code_quality_score,
            .problems f r.summary])
      else
        mainLoop env rest i (s ++ [r.code_quality_score]) b
          (log ++ [.analyzing f, .qualityScore f r.code_quality_score]) := by
  simp only [mainLoop, h]
  split <;> simp

/-- After a completed (non-aborted) strict loop, the `failed` flag is the
initial flag OR-ed with `fileFails` over the processed files. -/
theorem mainLoop_failed (env : Env) :
    ∀ (files : List String) (i : List IssueCode) (s : List Int) (b : Bool)
      (log : List LogEvent) (i' : List IssueCode) (s' : List Int) (b' : Bool)
      (log' : List LogEvent),
      mainLoop env files i s b log = .ok (i', s', b', log') →
      b' = (b || files.any (fileFails env))
  | [], i, s, b, log, i', s', b', log', h => by
    rw [mainLoop_nil] at h
    cases h
    simp
  | f :: rest, i, s, b, log, i', s', b', log', h => by
    cases hf : env.analyze f with
    | error msg => rw [mainLoop_cons_error hf] at h; cases h
    | ok r =>
      rw [mainLoop_cons_ok hf] at h
      by_cases hg : gateFails r
      · rw [if_pos hg] at h
        have := mainLoop_failed env rest _ _ _ _ _ _ _ _ h
        simp [this, List.any_cons, fileFails, hf, hg]
      · rw [if_neg hg] at h
        have := mainLoop_failed env rest _ _ _ _ _ _ _ _ h
        simp only [Bool.not_eq_true] at hg
        simp [this, List.any_cons, fileFails, hf, hg]

/-- After a completed strict loop, `all_scores` is the initial list extended
by the scores of the processed files, in order. -/
theorem mainLoop_scores (env : Env) :
    ∀ (files : List String) (i : List IssueCode) (s : List Int) (b : Bool)
      (log : List LogEvent) (i' : List IssueCode) (s' : List Int) (b' : Bool)
      (log' : List LogEvent),
      mainLoop env files i s b log = .ok (i', s', b', log') →
      s' = s ++ files.filterMap (okScore env)
  | [], i, s, b, log, i', s', b', log', h => by
    rw [mainLoop_nil] at h
    cases h
    simp
  | f :: rest, i, s, b, log, i', s', b', log', h => by
    cases hf : env.analyze f with
    | error msg => rw [mainLoop_cons_error hf] at h; cases h
    | ok r =>
      rw [mainLoop_cons_ok hf] at h
      by_cases hg : gateFails r
      · rw [if_pos hg] at h
        have := mainLoop_scores env rest _ _ _ _ _ _ _ _ h
        simp [this, okScore, hf]
      · rw [if_neg hg] at h
        have := mainLoop_scores env rest _ _ _ _ _ _ _ _ h
        simp [this, okScore, hf]

end CodeReview

namespace CodeReview

/-- `List.all` is invariant under permutation of the list. -/
theorem perm_all_eq {α : Type} {l₁ l₂ : List α} (h : l₁.Perm l₂)
    (p : α → Bool) : l₁.all p = l₂.all p := by
  induction h with
  | nil => rfl
  | cons x _ ih => simp [List.all_cons, ih]
  | swap x y l => simp [List.all_cons, Bool.and_left_comm]
  | trans _ _ ih₁ ih₂ => exact ih₁.trans ih₂

/-- The strict loop's final verdict only depends on the initial flag and on
which files analyze successfully and pass the gate. -/
theorem mainLoop_verdict (env : Env) :
    ∀ (files : List String) (i : List IssueCode) (s : List Int) (b : Bool)
      (log : List LogEvent),
      verdictOf (mainLoop env files i s b log) =
        if b || !(files.all (passesFile env)) then 1 else 0
  | [], i, s, b, log => by
    rw [mainLoop_nil]
    simp [verdictOf]
  | f :: rest, i, s, b, log => by
    cases hf : env.analyze f with
    | error msg =>
      rw [mainLoop_cons_error hf]
      simp [verdictOf, List.all_cons, passesFile, hf]
    | ok r =>
      rw [mainLoop_cons_ok hf]
      by_cases hg : gateFails r
      · rw [if_pos hg]
        rw [mainLoop_verdict env rest]
        simp [List.all_cons, passesFile, hf, hg]
      · rw [if_neg hg]
        rw [mainLoop_verdict env rest]
        simp only [Bool.not_eq_true] at hg
        simp [List.all_cons, passesFile, hf, hg]

/-- The gate exit signal is 0 exactly when every eligible file (in any
order) analyzes successfully and passes the gate, else 1. -/
theorem gateExit_eq_all (env : Env) (files : List String) :
    gateExit env files = if files.all (passesFile env) then 0 else 1 := by
  cases files with
  | nil => simp [gateExit]
  | cons f rest =>
    unfold gateExit
    rw [mainLoop_verdict env (f :: rest)]
    simp only [List.isEmpty_cons, Bool.false_eq_true, if_false]
    cases h : (f :: rest).all (passesFile env) <;> simp [h]

/-- `main`'s exit signal factored through the credential check and
`gateExit` on the discovered eligible files. -/
theorem mainRun_exitCode (env : Env) :
    (mainRun env).exitCode =
      if missingKey env.api_key then 1
      else gateExit env (get_files_to_analyze extsMain env).1 := by
  unfold mainRun gateExit verdictOf
  by_cases hk : missingKey env.api_key
  · simp [hk]
  · simp only [hk, Bool.false_eq_true, if_false]
    by_cases he : (get_files_to_analyze extsMain env).1.isEmpty
    · simp [he]
    · simp only [he, Bool.false_eq_true, if_false]
      cases hm : mainLoop env (get_files_to_analyze extsMain env).1 [] [] false [] with
      | error l => simp
      | ok acc =>
        obtain ⟨i, s, b, l⟩ := acc
        by_cases hb : b <;> simp [hb]

end CodeReview

namespace CodeReview

theorem scanLoop_nil (env : Env) (i : List IssueCode) (s : List Int)
    (log : List LogEvent) : scanLoop env [] i s log = (i, s, log) := rfl

theorem scanLoop_cons_missing {env : Env} {f : String}
    (h : env.fs_exists (os_path_join env.repo_path f) = false)
    (rest : List String) (i : List IssueCode) (s : List Int)
    (log : List LogEvent) :
    scanLoop env (f :: rest) i s log =
      scanLoop env rest i s (log ++ [.fileMissing f]) := by
  simp [scanLoop, h]

theorem scanLoop_cons_error {env : Env} {f : String} {msg : String}
    (hfe : env.fs_exists (os_path_join env.repo_path f) = true)
    (h : env.analyze (os_path_join env.repo_path f) = .error msg)
    (rest : List String) (i : List IssueCode) (s : List Int)
    (log : List LogEvent) :
    scanLoop env (f :: rest) i s log =
      scanLoop env rest i s
        (log ++ [.analyzingWithStatus f (statusOf env f), .parseError f msg]) := by
  simp [scanLoop, hfe, h]

theorem scanLoop_cons_ok {env : Env} {f : String} {r : AnalysisResult}
    (hfe : env.fs_exists (os_path_join env.repo_path f) = true)
    (h : env.analyze (os_path_join env.repo_path f) = .ok r)
    (rest : List String) (i : List IssueCode) (s : List Int)
    (log : List LogEvent) :
    scanLoop env (f :: rest) i s log =
      if gateFails r then
        scanLoop env rest (i ++ r.issues) (s ++ [r.code_quality_score])
          (log ++ [.analyzingWithStatus f (statusOf env f),
            .qualityScore f r.code_quality_score, .problems f r.summary])
      else
        scanLoop env rest i (s ++ [r.code_quality_score])
          (log ++ [.analyzingWithStatus f (statusOf env f),
            .qualityScore f r.code_quality_score]) := by
  simp only [scanLoop, hfe, Bool.not_true, Bool.false_eq_true, if_false, h]
  split <;> simp

/-- The lenient scan records exactly the scores of the files that still
exist and analyze successfully, in order, regardless of what happens to the
other files. -/
theorem scanLoop_scores (env : Env) :
    ∀ (files : List String) (i : List IssueCode) (s : List Int)
      (log : List LogEvent),
      (scanLoop env files i s log).2.1 = s ++ files.filterMap (scanScore env)
  | [], i, s, log => by simp [scanLoop_nil]
  | f :: rest, i, s, log => by
    cases hfe : env.fs_exists (os_path_join env.repo_path f) with
    | false =>
      rw [scanLoop_cons_missing hfe, scanLoop_scores env rest]
      simp [scanScore, hfe]
    | true =>
      cases hf : env.analyze (os_path_join env.repo_path f) with
      | error msg =>
        rw [scanLoop_cons_error hfe hf, scanLoop_scores env rest]
        simp [scanScore, hfe, hf]
      | ok r =>
        rw [scanLoop_cons_ok hfe hf]
        by_cases hg : gateFails r
        · rw [if_pos hg, scanLoop_scores env rest]
          simp [scanScore, hfe, hf]
        · rw [if_neg hg, scanLoop_scores env rest]
          simp [scanScore, hfe, hf]

/-- The lenient scan only ever appends per-file events to the log: any event
class it cannot emit is preserved by filtration. -/
theorem scanLoop_log_filter (env : Env) (p : LogEvent → Bool)
    (hp₁ : ∀ f, p (.fileMissing f) = false)
    (hp₂ : ∀ f st, p (.analyzingWithStatus f st) = false)
    (hp₃ : ∀ f m, p (.parseError f m) = false)
    (hp₄ : ∀ f sc, p (.qualityScore f sc) = false)
    (hp₅ : ∀ f sm, p (.problems f sm) = false) :
    ∀ (files : List String) (i : List IssueCode) (s : List Int)
      (log : List LogEvent),
      ((scanLoop env files i s log).2.2).filter p = log.filter p
  | [], i, s, log => by simp [scanLoop_nil]
  | f :: rest, i, s, log => by
    cases hfe : env.fs_exists (os_path_join env.repo_path f) with
    | false =>
      rw [scanLoop_cons_missing hfe,
        scanLoop_log_filter env p hp₁ hp₂ hp₃ hp₄ hp₅ rest]
      simp [List.filter_append, hp₁]
    | true =>
      cases hf : env.analyze (os_path_join env.repo_path f) with
      | error msg =>
        rw [scanLoop_cons_error hfe hf,
          scanLoop_log_filter env p hp₁ hp₂ hp₃ hp₄ hp₅ rest]
        simp [List.filter_append, hp₂, hp₃]
      | ok r =>
        rw [scanLoop_cons_ok hfe hf]
        by_cases hg : gateFails r
        · rw [if_pos hg, scanLoop_log_filter env p hp₁ hp₂ hp₃ hp₄ hp₅ rest]
          simp [List.filter_append, hp₂, hp₄, hp₅]
        · rw [if_neg hg, scanLoop_log_filter env p hp₁ hp₂ hp₃ hp₄ hp₅ rest]
          simp [List.filter_append, hp₂, hp₄]

/-- The strict loop likewise only appends per-file events. -/
theorem mainLoop_log_filter (env : Env) (p : LogEvent → Bool)
    (hp₁ : ∀ f, p (.analyzing f) = false)
    (hp₂ : ∀ f m, p (.parseError f m) = false)
    (hp₃ : ∀ f sc, p (.qualityScore f sc) = false)
    (hp₄ : ∀ f sm, p (.problems f sm) = false) :
    ∀ (files : List String) (i : List IssueCode) (s : List Int) (b : Bool)
      (log : List LogEvent),
      (mainLoopLog (mainLoop env files i s b log)).filter p = log.filter p
  | [], i, s, b, log => by simp [mainLoop_nil, mainLoopLog]
  | f :: rest, i, s, b, log => by
    cases hf : env.analyze f with
    | error msg =>
      rw [mainLoop_cons_error hf]
      simp [mainLoopLog, List.filter_append, hp₁, hp₂]
    | ok r =>
      rw [mainLoop_cons_ok hf]
      by_cases hg : gateFails r
      · rw [if_pos hg, mainLoop_log_filter env p hp₁ hp₂ hp₃ hp₄ rest]
        simp [List.filter_append, hp₁, hp₃, hp₄]
      · rw [if_neg hg, mainLoop_log_filter env p hp₁ hp₂ hp₃ hp₄ rest]
        simp [List.filter_append, hp₁, hp₃]

/-- Discovery only emits the git-error diagnostic or the no-files hint. -/
theorem get_files_log_filter (exts : List String) (env : Env)
    (p : LogEvent → Bool) (h₁ : ∀ m, p (.gitError m) = false)
    (h₂ : p .noFilesHint = false) :
    ((get_files_to_analyze exts env).2).filter p = [] := by
  unfold get_files_to_analyze
  cases env.staged_q with
  | raised msg => simp [h₁]
  | completed rc staged =>
    cases env.untracked_q with
    | raised msg => simp [h₁]
    | completed rc' untracked =>
      simp only []
      split <;> simp [h₂]

end CodeReview

namespace CodeReview

/-- `fileFails` unfolded to the shape of the spec sentence. -/
theorem fileFails_iff (env : Env) (f : String) :
    fileFails env f = true ↔
      ∃ r, env.analyze f = .ok r ∧
        (r.passed = false ∨ r.code_quality_score < 70) := by
  unfold fileFails gateFails
  cases h : env.analyze f with
  | error m => simp
  | ok r =>
    simp only [Except.ok.injEq, Bool.or_eq_true, Bool.not_eq_true',
      decide_eq_true_eq]
    constructor
    · intro hr
      exact ⟨r, rfl, hr⟩
    · rintro ⟨r', hr', hp⟩
      cases hr'
      exact hp

/-- `passesFile` unfolded: the file analyzes successfully, is marked passed,
and meets the threshold. -/
theorem passesFile_iff (env : Env) (f : String) :
    passesFile env f = true ↔
      ∃ r, env.analyze f = .ok r ∧ r.passed = true ∧
        70 ≤ r.code_quality_score := by
  unfold passesFile gateFails
  cases h : env.analyze f with
  | error m => simp
  | ok r =>
    simp only [Except.ok.injEq, Bool.not_eq_true', Bool.or_eq_false_iff,
      Bool.not_eq_false', decide_eq_false_iff_not, Int.not_lt]
    constructor
    · intro hr
      exact ⟨r, rfl, hr⟩
    · rintro ⟨r', hr', hp⟩
      cases hr'
      exact hp

/-- Negation of `passesFile`: the analysis raised, or the result fails the
gating predicate. -/
theorem passesFile_false_iff (env : Env) (f : String) :
    passesFile env f = false ↔
      (∃ msg, env.analyze f = .error msg) ∨
      ∃ r, env.analyze f = .ok r ∧
        (r.passed = false ∨ r.code_quality_score < 70) := by
  unfold passesFile gateFails
  cases h : env.analyze f with
  | error m => simp
  | ok r =>
    simp only [Except.ok.injEq, Bool.not_eq_false', Bool.or_eq_true,
      Bool.not_eq_true', decide_eq_true_eq]
    constructor
    · intro hr
      exact Or.inr ⟨r, rfl, hr⟩
    · rintro (⟨m, hm⟩ | ⟨r', hr', hp⟩)
      · cases hm
      · cases hr'
        exact hp

/-- Discovery in the both-queries-completed case: the filtered dedup of the
two stdout line lists. -/
theorem get_files_completed (exts : List String) (env : Env)
    (rc₁ rc₂ : Int) (staged untracked : List String)
    (hs : env.staged_q = .completed rc₁ staged)
    (hu : env.untracked_q = .completed rc₂ untracked) :
    (get_files_to_analyze exts env).1 =
      ((staged ++ untracked).dedup).filter fun file =>
        exts.any (fun e => strEndsWith file e) &&
        env.fs_exists (os_path_join env.repo_path file) &&
        env.fs_isfile (os_path_join env.repo_path file) := by
  unfold get_files_to_analyze
  rw [hs, hu]

end CodeReview

namespace CodeReview

/-- Claim C4: for every backend and filesystem state, file discovery returns
no duplicate paths (staged/untracked overlaps collapse to one entry), and
every returned entry has an allow-listed extension and refers to a path that
exists as a regular file at filter time. -/
theorem discovery_nodup_and_valid (exts : List String) (env : Env) :
    ((get_files_to_analyze exts env).1).Nodup ∧
    ∀ f ∈ (get_files_to_analyze exts env).1,
      exts.any (fun e => strEndsWith f e) = true ∧
      env.fs_exists (os_path_join env.repo_path f) = true ∧
      env.fs_isfile (os_path_join env.repo_path f) = true := by
  cases hs : env.staged_q with
  | raised m =>
    unfold get_files_to_analyze
    rw [hs]
    simp
  | completed rc staged =>
    cases hu : env.untracked_q with
    | raised m =>
      unfold get_files_to_analyze
      rw [hs, hu]
      simp
    | completed rc' untracked =>
      rw [get_files_completed exts env rc rc' staged untracked hs hu]
      constructor
      · exact (List.nodup_dedup _).filter _
      · intro f hf
        have hp := (List.mem_filter.mp hf).2
        simp only [Bool.and_eq_true] at hp
        exact ⟨hp.1.1, hp.1.2, hp.2⟩

/-- Claim C9: eligibility is pure string suffix matching on the full path
name — a discovered path is returned iff it appears in one of the two query
outputs, some allow-listed extension is a suffix of it (no non-empty stem is
required, so a file whose entire basename is an extension, such as `.py`,
qualifies), and it exists as a regular file. -/
theorem eligibility_is_suffix_match (exts : List String) (env : Env)
    (rc₁ rc₂ : Int) (staged untracked : List String) (f : String)
    (hs : env.staged_q = .completed rc₁ staged)
    (hu : env.untracked_q = .completed rc₂ untracked) :
    f ∈ (get_files_to_analyze exts env).1 ↔
      (f ∈ staged ++ untracked ∧
       exts.any (fun e => strEndsWith f e) = true ∧
       env.fs_exists (os_path_join env.repo_path f) = true ∧
       env.fs_isfile (os_path_join env.repo_path f) = true) := by
  rw [get_files_completed exts env rc₁ rc₂ staged untracked hs hu]
  simp only [List.mem_filter, List.mem_dedup, Bool.and_eq_true, and_assoc]

/-- Claim C7: when the API credential is absent (or empty, which Python's
truthiness also rejects), the commit gate exits with signal 1 and its entire
output is the credential diagnostic: no discovery, file read, or analysis
event ever happens. -/
theorem missing_credential_halts (env : Env)
    (h : missingKey env.api_key = true) :
    mainRun env = { exitCode := 1, log := [.apiKeyMissing] } := by
  unfold mainRun
  simp [h]

/-- Claim C8: the commit-gate decision is a pure function of the environment
(identical git query results, file contents and backend responses), and its
exit signal is moreover invariant under permuting the processing order of the
eligible files — the only under-determined part of a run, since Python's set
iteration order is unspecified.  Hence two runs against an unchanged working
tree and unchanged backend responses yield the same decision. -/
theorem gate_decision_deterministic (env : Env) (l₁ l₂ : List String)
    (hp : l₁.Perm l₂) :
    gateExit env l₁ = gateExit env l₂ ∧
    (mainRun env).exitCode =
      (if missingKey env.api_key then 1
       else gateExit env (get_files_to_analyze extsMain env).1) := by
  refine ⟨?_, mainRun_exitCode env⟩
  rw [gateExit_eq_all, gateExit_eq_all, perm_all_eq hp]

/-- Claim C1: when the commit-gate loop has processed all files without
aborting, the accumulated `failed` flag is true iff at least one processed
file's result was not `passed` or scored below the hardcoded threshold 70. -/
theorem failed_iff_some_file_fails (env : Env) (files : List String)
    (i' : List IssueCode) (s' : List Int) (b' : Bool) (log' : List LogEvent)
    (h : mainLoop env files [] [] false [] = .ok (i', s', b', log')) :
    b' = true ↔
      ∃ f ∈ files, ∃ r, env.analyze f = .ok r ∧
        (r.passed = false ∨ r.code_quality_score < 70) := by
  have hb := mainLoop_failed env files [] [] false [] i' s' b' log' h
  rw [hb]
  simp only [Bool.false_or, List.any_eq_true, fileFails_iff]

/-- Claim C10: the lenient full-repository scan never produces a failure
outcome.  Its result type has no exit signal (the source has no `sys.exit`
and no `failed` flag between lines 404 and 474, so the function always
returns normally); the recorded scores are exactly those of the files that
exist and analyze successfully — every file is visited even when any or all
of the others raise or fail the quality predicate — and no failure verdict
or credential error is ever logged. -/
theorem lenient_scan_never_fails (env : Env) :
    (analyze_repository env).all_scores =
      ((get_files_to_analyze extsSetup env).1).filterMap (scanScore env) ∧
    (analyze_repository env).log.filter
      (fun e => e == LogEvent.reviewFailed || e == LogEvent.apiKeyMissing)
      = [] := by
  unfold analyze_repository
  by_cases he : (get_files_to_analyze extsSetup env).1.isEmpty
  · have h0 : (get_files_to_analyze extsSetup env).1 = [] := by
      simpa [List.isEmpty_iff] using he
    refine ⟨by simp [he, h0], ?_⟩
    simp only [he, if_true]
    rw [List.filter_append,
      get_files_log_filter extsSetup env _ (fun m => rfl) rfl]
    simp
  · refine ⟨?_, ?_⟩
    · simp only [he, if_false, Bool.false_eq_true]
      exact scanLoop_scores env _ [] [] []
    · simp only [he, if_false, Bool.false_eq_true]
      rw [List.filter_append,
        scanLoop_log_filter env _ (fun f => rfl) (fun f st => rfl)
          (fun f m => rfl) (fun f sc => rfl) (fun f sm => rfl) _ [] [] []]
      simp only [List.filter_nil, List.nil_append]
      split <;> simp

end CodeReview

namespace CodeReview

/-- Bool-level exit contract: signal 0 iff the credential is present and
every eligible file passes. -/
theorem exit_zero_iff_bool (env : Env) :
    (mainRun env).exitCode = 0 ↔
      (missingKey env.api_key = false ∧
       ((get_files_to_analyze extsMain env).1).all (passesFile env) = true) := by
  rw [mainRun_exitCode env, gateExit_eq_all]
  cases hall : ((get_files_to_analyze extsMain env).1).all (passesFile env) <;>
    by_cases hk : missingKey env.api_key = true <;> simp [hk, hall]

/-- Bool-level exit contract: signal 1 iff the credential is missing or some
eligible file does not pass. -/
theorem exit_one_iff_bool (env : Env) :
    (mainRun env).exitCode = 1 ↔
      (missingKey env.api_key = true ∨
       ((get_files_to_analyze extsMain env).1).all (passesFile env) = false) := by
  rw [mainRun_exitCode env, gateExit_eq_all]
  cases hall : ((get_files_to_analyze extsMain env).1).all (passesFile env) <;>
    by_cases hk : missingKey env.api_key = true <;> simp [hk, hall]

/-- Claim C2: the commit-gate process exits 0 exactly when the credential is
present and every eligible file analyzes successfully and passes gating
(vacuously so when there is nothing to do), and exits 1 exactly when the
credential is missing or some eligible file either raises during
read/analysis (the strict-mode fatal error) or fails gating. -/
theorem exit_signal_contract (env : Env) :
    ((mainRun env).exitCode = 0 ↔
      (missingKey env.api_key = false ∧
       ∀ f ∈ (get_files_to_analyze extsMain env).1,
         ∃ r, env.analyze f = .ok r ∧ r.passed = true ∧
           70 ≤ r.code_quality_score)) ∧
    ((mainRun env).exitCode = 1 ↔
      (missingKey env.api_key = true ∨
       ∃ f ∈ (get_files_to_analyze extsMain env).1,
         (∃ msg, env.analyze f = .error msg) ∨
         ∃ r, env.analyze f = .ok r ∧
           (r.passed = false ∨ r.code_quality_score < 70))) := by
  constructor
  · rw [exit_zero_iff_bool env]
    simp only [List.all_eq_true, passesFile_iff]
  · rw [exit_one_iff_bool env]
    simp only [List.all_eq_false, Bool.not_eq_true, passesFile_false_iff]

/-- Claim C3: the two per-file error policies are distinct operating modes.
In the strict commit gate, the first per-file exception aborts the whole run
at once — the result is the failure exit with the log cut at that file, and
is independent of the remaining files.  In the lenient scan, the same
exception is logged and iteration continues with the remaining files and
untouched accumulators, so the overall result reflects only the other
files. -/
theorem two_error_policies (env : Env) (f msg : String)
    (h : env.analyze f = .error msg) :
    (∀ rest i s b log,
       mainLoop env (f :: rest) i s b log =
         .error (log ++ [.analyzing f, .parseError f msg])) ∧
    (∀ g rest i s log, os_path_join env.repo_path g = f →
       env.fs_exists f = true →
       scanLoop env (g :: rest) i s log =
         scanLoop env rest i s
           (log ++ [.analyzingWithStatus g (statusOf env g),
             .parseError g msg])) := by
  constructor
  · intro rest i s b log
    exact mainLoop_cons_error h rest i s b log
  · intro g rest i s log hj hfe
    have hfe' : env.fs_exists (os_path_join env.repo_path g) = true := by
      rw [hj]
      exact hfe
    have h' : env.analyze (os_path_join env.repo_path g) = .error msg := by
      rw [hj]
      exact h
    exact scanLoop_cons_error hfe' h' rest i s log

end CodeReview

namespace CodeReview

/-- In `main`, the average-score report is the only average event in the
whole log of a completed run, and it carries the sum and count of the
recorded `all_scores`; no average event appears when no score was
recorded. -/
theorem mainRun_avg (env : Env) (i' : List IssueCode) (s' : List Int)
    (b' : Bool) (log' : List LogEvent)
    (hk : missingKey env.api_key = false)
    (hm : mainLoop env (get_files_to_analyze extsMain env).1 [] [] false []
      = .ok (i', s', b', log')) :
    (mainRun env).log.filter isAvg =
      if s'.length > 0 then [.averageScore s'.sum s'.length] else [] := by
  unfold mainRun
  simp only [hk, Bool.false_eq_true, if_false]
  by_cases he : (get_files_to_analyze extsMain env).1.isEmpty
  · have h0 : (get_files_to_analyze extsMain env).1 = [] := by
      simpa [List.isEmpty_iff] using he
    rw [h0, mainLoop_nil] at hm
    simp only [Except.ok.injEq, Prod.mk.injEq] at hm
    obtain ⟨-, hs', -, -⟩ := hm
    simp only [he, if_true, ← hs', List.length_nil, gt_iff_lt,
      Nat.lt_irrefl, if_false]
    rw [List.filter_append,
      get_files_log_filter extsMain env _ (fun m => rfl) rfl]
    simp [isAvg]
  · simp only [he, Bool.false_eq_true, if_false]
    have hlog : log'.filter isAvg = [] := by
      have h := mainLoop_log_filter env isAvg (fun f => rfl)
        (fun f m => rfl) (fun f sc => rfl) (fun f sm => rfl)
        (get_files_to_analyze extsMain env).1 [] [] false []
      rw [hm] at h
      simpa [mainLoopLog] using h
    rw [hm]
    by_cases hb : b' <;>
      simp only [hb, if_true, if_false, Bool.false_eq_true] <;>
      rw [List.filter_append, List.filter_append, List.filter_append,
        get_files_log_filter extsMain env _ (fun m => rfl) rfl, hlog] <;>
      by_cases hl : s'.length > 0 <;>
      simp [hl, isAvg]

/-- In the lenient scan, the average-score report is likewise the only
average event, present exactly when `all_scores` is non-empty. -/
theorem scan_avg (env : Env) :
    (analyze_repository env).log.filter isAvg =
      if (analyze_repository env).all_scores.length > 0 then
        [.averageScore (analyze_repository env).all_scores.sum
          (analyze_repository env).all_scores.length]
      else [] := by
  unfold analyze_repository
  by_cases he : (get_files_to_analyze extsSetup env).1.isEmpty
  · simp only [he, if_true, List.length_nil, gt_iff_lt, Nat.lt_irrefl,
      if_false]
    rw [List.filter_append,
      get_files_log_filter extsSetup env _ (fun m => rfl) rfl]
    simp [isAvg]
  · simp only [he, Bool.false_eq_true, if_false]
    have hlog := scanLoop_log_filter env isAvg (fun f => rfl)
      (fun f st => rfl) (fun f m => rfl) (fun f sc => rfl) (fun f sm => rfl)
      (get_files_to_analyze extsSetup env).1 [] [] []
    simp only [List.filter_nil] at hlog
    rw [List.filter_append, hlog]
    by_cases hl : (scanLoop env (get_files_to_analyze extsSetup env).1 [] [] []).2.1.length > 0 <;>
      simp [hl, isAvg]

/-- Claim C5: whenever the recorded score sequence is non-empty, exactly one
average is reported and it is the arithmetic mean of the recorded scores
(the reported value is `sum / count`, exact over the integer scores); when
the sequence is empty, no average is reported.  Stated for the lenient scan
and for a completed commit-gate run. -/
theorem average_reported_iff_scores (env : Env) :
    ((analyze_repository env).all_scores ≠ [] →
      (analyze_repository env).log.filter isAvg =
        [.averageScore (analyze_repository env).all_scores.sum
          (analyze_repository env).all_scores.length] ∧
      ((analyze_repository env).all_scores.sum : ℚ) /
        ((analyze_repository env).all_scores.length : ℚ) =
        arithMean (analyze_repository env).all_scores) ∧
    ((analyze_repository env).all_scores = [] →
      (analyze_repository env).log.filter isAvg = []) ∧
    (∀ i' s' b' log', missingKey env.api_key = false →
      mainLoop env (get_files_to_analyze extsMain env).1 [] [] false [] =
        .ok (i', s', b', log') →
      (s' ≠ [] →
        (mainRun env).log.filter isAvg = [.averageScore s'.sum s'.length] ∧
        (s'.sum : ℚ) / (s'.length : ℚ) = arithMean s') ∧
      (s' = [] → (mainRun env).log.filter isAvg = [])) := by
  refine ⟨?_, ?_, ?_⟩
  · intro hne
    have hl : (analyze_repository env).all_scores.length > 0 :=
      List.length_pos.mpr hne
    refine ⟨?_, rfl⟩
    rw [scan_avg env, if_pos hl]
  · intro h0
    rw [scan_avg env, h0]
    simp
  · intro i' s' b' log' hk hm
    constructor
    · intro hne
      have hl : s'.length > 0 := List.length_pos.mpr hne
      refine ⟨?_, rfl⟩
      rw [mainRun_avg env i' s' b' log' hk hm, if_pos hl]
    · intro h0
      rw [mainRun_avg env i' s' b' log' hk hm, h0]
      simp

end CodeReview

namespace CodeReview

/-! ## Concrete environments used to exercise the theorems -/

/-- A passing analysis result. -/
def resPass : AnalysisResult :=
  { issues := [], passed := true, summary := "clean", code_quality_score := 85 }

/-- A failing analysis result. -/
def resFail : AnalysisResult :=
  { issues := [], passed := false, summary := "needs work",
    code_quality_score := 60 }

/-- One staged and one untracked file; the staged one passes, the untracked
one fails gating. -/
def envMixed : Env :=
  { api_key := some "k"
    staged_q := .completed 0 ["a.py"]
    untracked_q := .completed 0 ["b.py"]
    repo_path := "/r"
    fs_exists := fun _ => true
    fs_isfile := fun _ => true
    analyze := fun p => if p == "a.py" then .ok resPass else .ok resFail }

/-- The backend raises on one file (under either addressing convention) and
succeeds on the rest. -/
def envErr : Env :=
  { api_key := some "k"
    staged_q := .completed 0 ["bad.py", "good.py"]
    untracked_q := .completed 0 []
    repo_path := "/r"
    fs_exists := fun _ => true
    fs_isfile := fun _ => true
    analyze := fun p =>
      if p == "bad.py" || p == "/r/bad.py" then .error "boom"
      else .ok resPass }

/-- The credential is unset. -/
def envNoKey : Env :=
  { api_key := none
    staged_q := .completed 0 ["a.py"]
    untracked_q := .completed 0 []
    repo_path := "/r"
    fs_exists := fun _ => true
    fs_isfile := fun _ => true
    analyze := fun _ => .ok resPass }

/-- The staged-files query raises (e.g. the git binary is missing). -/
def envRaisedGit : Env :=
  { api_key := some "k"
    staged_q := .raised "git not found"
    untracked_q := .completed 0 []
    repo_path := "/r"
    fs_exists := fun _ => true
    fs_isfile := fun _ => true
    analyze := fun _ => .ok resPass }

/-- Both git queries fail with a non-zero exit status (return code 128,
empty stdout) — no exception is raised, so the `except` branch never runs. -/
def envNonzeroExit : Env :=
  { api_key := some "k"
    staged_q := .completed 128 []
    untracked_q := .completed 128 []
    repo_path := "/r"
    fs_exists := fun _ => false
    fs_isfile := fun _ => false
    analyze := fun _ => .error "unused" }

/-- A single untracked file whose entire basename is the extension. -/
def envDotPy : Env :=
  { api_key := some "k"
    staged_q := .completed 0 [".py"]
    untracked_q := .completed 0 []
    repo_path := "/r"
    fs_exists := fun _ => true
    fs_isfile := fun _ => true
    analyze := fun _ => .ok resPass }

/-- Claim C6 counterexample: when the backend queries fail with a non-zero
exit status (no exception), the resolver does return an empty list, but it
surfaces NO diagnostic for the error cause — it prints only the generic
no-files hint, because the source never inspects the return codes and its
`except` handler only fires on raised exceptions. -/
theorem nonzero_exit_has_no_diagnostic :
    envNonzeroExit.staged_q = GitOutcome.completed 128 [] ∧
    envNonzeroExit.untracked_q = GitOutcome.completed 128 [] ∧
    (get_files_to_analyze extsMain envNonzeroExit).1 = [] ∧
    ((get_files_to_analyze extsMain envNonzeroExit).2).any isGitError
      = false ∧
    (get_files_to_analyze extsMain envNonzeroExit).2
      = [LogEvent.noFilesHint] :=
  ⟨rfl, rfl, rfl, rfl, rfl⟩

/-- Claim C6 (amended): if a backend query raises (I/O error, e.g. a missing
git binary), the resolver returns an empty set and surfaces a diagnostic with
the error cause, and both callers treat the empty result as benign: the
commit gate exits 0 and the lenient scan returns with no scores.  A non-zero
backend exit status without an exception is NOT detected: the resolver
parses the captured stdout regardless of the status and emits no error
diagnostic. -/
theorem discovery_exception_absorbed (env : Env) (msg : String)
    (exts : List String)
    (h : env.staged_q = .raised msg ∨
      (∃ rc ls, env.staged_q = .completed rc ls) ∧
        env.untracked_q = .raised msg) :
    get_files_to_analyze exts env = ([], [.gitError msg]) ∧
    (missingKey env.api_key = false →
      mainRun env = { exitCode := 0, log := [.gitError msg, .noFilesFound] }) ∧
    (analyze_repository env).all_scores = [] ∧
    (analyze_repository env).log = [.gitError msg, .noFilesToScan] := by
  have hg : ∀ exts', get_files_to_analyze exts' env = ([], [.gitError msg]) := by
    intro exts'
    rcases h with h1 | ⟨⟨rc, ls, h1⟩, h2⟩
    · unfold get_files_to_analyze
      rw [h1]
    · unfold get_files_to_analyze
      rw [h1, h2]
  refine ⟨hg exts, ?_, ?_, ?_⟩
  · intro hk
    unfold mainRun
    rw [hg extsMain]
    simp [hk]
  · unfold analyze_repository
    rw [hg extsSetup]
    simp
  · unfold analyze_repository
    rw [hg extsSetup]
    simp

end CodeReview

namespace CodeReview

/-- Witness for claim C1 at a concrete run: one passing and one failing
file, `failed` ends true. -/
theorem failed_iff_some_file_fails_witness :
    (true = true ↔
      ∃ f ∈ ["a.py", "b.py"], ∃ r, envMixed.analyze f = .ok r ∧
        (r.passed = false ∨ r.code_quality_score < 70)) :=
  failed_iff_some_file_fails envMixed ["a.py", "b.py"] [] [85, 60] true
    [.analyzing "a.py", .qualityScore "a.py" 85, .analyzing "b.py",
     .qualityScore "b.py" 60, .problems "b.py" "needs work"] rfl

/-- Witness for claim C3 at a concrete run: the strict loop aborts on the
first raising file, the lenient loop logs it and continues. -/
theorem two_error_policies_witness :
    mainLoop envErr ["/r/bad.py", "good.py"] [] [] false [] =
      .error [.analyzing "/r/bad.py", .parseError "/r/bad.py" "boom"] ∧
    scanLoop envErr ["bad.py"] [] [] [] =
      scanLoop envErr [] [] []
        [.analyzingWithStatus "bad.py" (statusOf envErr "bad.py"),
         .parseError "bad.py" "boom"] := by
  have h := two_error_policies envErr "/r/bad.py" "boom" rfl
  refine ⟨?_, ?_⟩
  · have h1 := h.1 ["good.py"] [] [] false []
    simpa using h1
  · have h2 := h.2 "bad.py" [] [] [] [] (by decide) (by decide)
    simpa using h2

/-- Witness for claim C5 at a concrete run: averages 145/2 (gate) and
120/2 (scan) are the only reported averages. -/
theorem average_reported_iff_scores_witness :
    ((mainRun envMixed).log.filter isAvg = [.averageScore 145 2]) ∧
    ((analyze_repository envMixed).log.filter isAvg
      = [.averageScore 120 2]) ∧
    (((145 : Int) : ℚ) / ((2 : Nat) : ℚ) = arithMean [85, 60]) := by
  have h := average_reported_iff_scores envMixed
  have hmain := (h.2.2 [] [85, 60] true
    [.analyzing "a.py", .qualityScore "a.py" 85, .analyzing "b.py",
     .qualityScore "b.py" 60, .problems "b.py" "needs work"]
    (by decide) rfl).1 (by decide)
  have hscan := h.1 (by decide)
  exact ⟨hmain.1, hscan.1, hmain.2⟩

/-- Witness for the amended claim C6 at a concrete input: the staged query
raises, discovery absorbs it with a diagnostic, the gate exits 0. -/
theorem discovery_exception_absorbed_witness :
    get_files_to_analyze extsMain envRaisedGit
      = ([], [.gitError "git not found"]) ∧
    mainRun envRaisedGit
      = { exitCode := 0, log := [.gitError "git not found", .noFilesFound] } ∧
    (analyze_repository envRaisedGit).all_scores = [] := by
  have h := discovery_exception_absorbed envRaisedGit "git not found"
    extsMain (Or.inl rfl)
  exact ⟨h.1, h.2.1 rfl, h.2.2.1⟩

/-- Witness for claim C7 at a concrete input: unset credential. -/
theorem missing_credential_halts_witness :
    mainRun envNoKey = { exitCode := 1, log := [.apiKeyMissing] } :=
  missing_credential_halts envNoKey rfl

/-- Witness for claim C8 at a concrete input: swapping the processing order
of the two eligible files leaves the exit signal unchanged. -/
theorem gate_decision_deterministic_witness :
    gateExit envMixed ["a.py", "b.py"] = gateExit envMixed ["b.py", "a.py"] ∧
    (mainRun envMixed).exitCode =
      (if missingKey envMixed.api_key then 1
       else gateExit envMixed (get_files_to_analyze extsMain envMixed).1) :=
  gate_decision_deterministic envMixed ["a.py", "b.py"] ["b.py", "a.py"]
    (by decide)

/-- Witness for claim C9 at a concrete input: a file named exactly `.py`
(empty stem) is eligible. -/
theorem eligibility_is_suffix_match_witness :
    ".py" ∈ (get_files_to_analyze extsMain envDotPy).1 :=
  (eligibility_is_suffix_match extsMain envDotPy 0 0 [".py"] [] ".py"
    rfl rfl).mpr (by decide)

end CodeReview

namespace CodeReview

/-- Witness for claim C2 at a concrete input: a failing file forces exit
signal 1. -/
theorem exit_signal_contract_witness :
    (mainRun envMixed).exitCode = 1 :=
  (exit_signal_contract envMixed).2.mpr
    (Or.inr ⟨"b.py", by decide, Or.inr ⟨resFail, rfl, Or.inl rfl⟩⟩)

/-- Witness for claim C4 at a concrete input. -/
theorem discovery_nodup_and_valid_witness :
    ((get_files_to_analyze extsMain envMixed).1).Nodup ∧
    (extsMain.any (fun e => strEndsWith "a.py" e) = true ∧
     envMixed.fs_exists (os_path_join envMixed.repo_path "a.py") = true ∧
     envMixed.fs_isfile (os_path_join envMixed.repo_path "a.py") = true) := by
  have h := discovery_nodup_and_valid extsMain envMixed
  exact ⟨h.1, h.2 "a.py" (by decide)⟩

/-- Witness for claim C10 at a concrete input on which one file raises. -/
theorem lenient_scan_never_fails_witness :
    (analyze_repository envErr).all_scores =
      ((get_files_to_analyze extsSetup envErr).1).filterMap
        (scanScore envErr) ∧
    (analyze_repository envErr).log.filter
      (fun e => e == LogEvent.reviewFailed || e == LogEvent.apiKeyMissing)
      = [] :=
  lenient_scan_never_fails envErr

end CodeReview
